import Mathlib

/-!
Verification of the NetDimm protocol driver (`netboot/netboot.py`).

The development shallow-embeds the protocol engine of the `NetDimm` class:
byte/word packing, the zlib/IEEE CRC32, the chunked upload pipeline of
`__upload_file`, the DES usage of `__upload_file.__encrypt` (the DES core
itself is an external library and is kept abstract as a parameter), the
get-info reply decoding, the Triforce boot-id patch of
`__patch_boot_id_check`, the event traces of `send`/`reboot` and of the
`__connection` context manager, the `__read` receive loop and the
`__send_packet` write.

Machine integers are `Nat` with explicit masking where the Python code
masks; byte strings are `List Nat` whose elements are byte values.
-/

set_option maxRecDepth 10000

namespace Netboot

/-- Little-endian packing of a 32-bit word, as `struct.pack("<I", n)` lays
out its four bytes. -/
def le32 (n : Nat) : List Nat :=
  [n % 256, n / 256 % 256, n / 65536 % 256, n / 16777216 % 256]

/-- Little-endian packing of a 16-bit word, as `struct.pack("<H", n)` lays
out its two bytes. -/
def le16 (n : Nat) : List Nat :=
  [n % 256, n / 256 % 256]

/-- Little-endian decoding of a byte list, as `struct.unpack` reads an
unsigned little-endian field. -/
def unpackLE (bytes : List Nat) : Nat :=
  bytes.foldr (fun b acc => b % 256 + 256 * acc) 0

/-- The Python expression `(~c) & 0xFFFFFFFF` on a nonnegative `c`: the bitwise
complement of the low 32 bits. -/
def pyInv32 (c : Nat) : Nat :=
  0xFFFFFFFF - c % 0x100000000

/-- Reflected IEEE 802.3 CRC32 polynomial, as used by `zlib.crc32`. -/
def crcPoly : Nat := 0xEDB88320

/-- One bit-round of the reflected CRC32 update. -/
def crcRound (c : Nat) : Nat :=
  if c % 2 = 1 then c / 2 ^^^ crcPoly else c / 2

/-- Iterated CRC32 bit-rounds. -/
def crcRounds : Nat → Nat → Nat
  | 0, c => c
  | n + 1, c => crcRounds n (crcRound c)

/-- CRC32 accumulator update for one input byte (bytes are reduced mod 256,
which is the identity on actual byte values). -/
def crcUpdate (c b : Nat) : Nat :=
  crcRounds 8 (c ^^^ b % 256)

/-- The standard IEEE CRC32 exactly as `zlib.crc32(data, seed)` computes it:
the running value is pre- and post-inverted around a fold of per-byte
updates.  `zlib` is a library external to the repository; this definition
follows the description in the spec "standard IEEE 802.3 polynomial with the
usual seed/inversion; the accumulator begins at 0 and is inverted once at
the end". -/
def zlibCrc32 (data : List Nat) (seed : Nat) : Nat :=
  data.foldl crcUpdate (seed % 0x100000000 ^^^ 0xFFFFFFFF) ^^^ 0xFFFFFFFF

/-- Concatenation of a list of byte strings. -/
def concatBytes : List (List Nat) → List Nat
  | [] => []
  | chunk :: rest => chunk ++ concatBytes rest

/-- Wire packet, mirroring class `NetDimmPacket`: packet id, flags and the
payload bytes (the length field of the class is `data.length`). -/
structure NetDimmPacket where
  pktid : Nat
  flags : Nat
  data : List Nat
deriving DecidableEq, Repr

/-- The 32-bit header word built by `__send_packet`:
`((pktid & 0xFF) << 24) | ((flags & 0xFF) << 16) | (length & 0xFFFF)`. -/
def headerWord (p : NetDimmPacket) : Nat :=
  (p.pktid &&& 0xFF) <<< 24 ||| (p.flags &&& 0xFF) <<< 16 ||| p.data.length &&& 0xFFFF

/-- The byte string handed to the single `sock.send` call of
`__send_packet`: the packed little-endian header followed by the payload. -/
def packetBytes (p : NetDimmPacket) : List Nat :=
  le32 (headerWord p) ++ p.data

/-- What actually reaches the stream: `__send_packet` performs one
`sock.send(buffer)` and ignores the returned count, so if the socket
accepts `accept buffer` bytes, exactly that prefix is delivered.  `accept`
models how many bytes the kernel accepts (always at most the buffer length for a
real socket; `take` caps it regardless). -/
def sendPacketDelivered (accept : List Nat → Nat) (p : NetDimmPacket) : List Nat :=
  (packetBytes p).take (accept (packetBytes p))

/-- Target family, mirroring `TargetEnum`. -/
inductive TargetEnum
  | TARGET_CHIHIRO
  | TARGET_NAOMI
  | TARGET_TRIFORCE
deriving DecidableEq, Repr

/-- Firmware version tag, mirroring `TargetVersionEnum`. -/
inductive TargetVersionEnum
  | TARGET_VERSION_UNKNOWN
  | TARGET_VERSION_1_07
  | TARGET_VERSION_2_03
  | TARGET_VERSION_2_15
  | TARGET_VERSION_3_01
  | TARGET_VERSION_4_01
  | TARGET_VERSION_4_02
deriving DecidableEq, Repr

/-- Device information, mirroring class `NetDimmInfo`. -/
structure NetDimmInfo where
  current_game_crc : Nat
  memory_size : Nat
  firmware_version : TargetVersionEnum
  available_game_memory : Nat
deriving DecidableEq, Repr

/-- The firmware tag obtained from the version word of a get-info reply.
The source formats `f"{(version >> 8) & 0xFF}.{(version & 0xFF):02}"` and
looks the string up in `TargetVersionEnum`, falling back to UNKNOWN on
`ValueError`.  The version strings of the enum are exactly "1.07", "2.03",
"2.15", "3.01", "4.01", "4.02" (single-digit major, two-digit zero-padded
minor), so the lookup succeeds exactly on the major/minor pairs below. -/
def firmwareVersionOf (version : Nat) : TargetVersionEnum :=
  let major := version >>> 8 &&& 0xFF
  let minor := version &&& 0xFF
  if major = 1 ∧ minor = 7 then .TARGET_VERSION_1_07
  else if major = 2 ∧ minor = 3 then .TARGET_VERSION_2_03
  else if major = 2 ∧ minor = 15 then .TARGET_VERSION_2_15
  else if major = 3 ∧ minor = 1 then .TARGET_VERSION_3_01
  else if major = 4 ∧ minor = 1 then .TARGET_VERSION_4_01
  else if major = 4 ∧ minor = 2 then .TARGET_VERSION_4_02
  else .TARGET_VERSION_UNKNOWN

/-- Decoding part of `__get_information`: validate the packet id of the reply
and length, then `struct.unpack("<HHHHI", data)` and build the
`NetDimmInfo` with `memory_size = dimm_memory` and
`available_game_memory = game_memory << 20`. -/
def getInformationParse (response : NetDimmPacket) : Except String NetDimmInfo :=
  if response.pktid ≠ 0x18 then
    .error "Unexpected data returned from get info packet!"
  else if response.data.length ≠ 12 then
    .error "Unexpected data length returned from get info packet!"
  else
    let version := unpackLE ((response.data.drop 2).take 2)
    let game_memory := unpackLE ((response.data.drop 4).take 2)
    let dimm_memory := unpackLE ((response.data.drop 6).take 2)
    let crc := unpackLE ((response.data.drop 8).take 4)
    .ok
      { current_game_crc := crc
        memory_size := dimm_memory
        firmware_version := firmwareVersionOf version
        available_game_memory := game_memory <<< 20 }

/-- The fixed 0x8000-byte (32 KiB) chunk stride of `__upload_file`. -/
def chunkSize : Nat := 0x8000

/-- One argument tuple of a `__upload(sequence, addr, data, last_chunk)`
call made by the upload loop; `data` is the (possibly encrypted) bytes. -/
structure UploadChunk where
  sequence : Nat
  addr : Nat
  data : List Nat
  lastChunk : Bool
deriving DecidableEq, Repr

/-- Result of the upload loop: the `__upload` calls made, the final CRC
accumulator, and the final `addr` (which `__upload_file` reports as the
length in `__set_information`). -/
structure UploadOut where
  chunks : List UploadChunk
  crcOut : Nat
  addrOut : Nat
deriving DecidableEq, Repr

/-- The `while addr < total` loop of `__upload_file`, recursing on the
not-yet-sent suffix `rest = data[addr:]` (so the loop guard `addr < total`
is `rest ≠ []`).  Each iteration takes `current = data[addr:addr+0x8000]`,
computes `last_packet = (addr + len(current) == total)`, encrypts, emits
the chunk, accumulates `crc = zlib.crc32(cipher, crc)` and advances `addr`
and `sequence`.  `fuel` is a structural bound on the number of iterations;
`rest.length` always suffices because every iteration consumes at least
one byte. -/
def uploadGo (enc : List Nat → List Nat) (total : Nat) :
    Nat → Nat → Nat → Nat → List Nat → UploadOut
  | _, _, addr, crc, [] => ⟨[], crc, addr⟩
  | 0, _, addr, crc, _ :: _ => ⟨[], crc, addr⟩
  | fuel + 1, seq, addr, crc, rest@(_ :: _) =>
    let current := rest.take chunkSize
    let curlen := current.length
    let lastPacket := decide (addr + curlen = total)
    let cipher := enc current
    let next := uploadGo enc total fuel (seq + 1) (addr + curlen)
      (zlibCrc32 cipher crc) (rest.drop chunkSize)
    ⟨⟨seq, addr, cipher, lastPacket⟩ :: next.chunks, next.crcOut, next.addrOut⟩

/-- The whole loop of `__upload_file`, started at `sequence = 1`,
`addr = 0`, `crc = 0`. -/
def uploadFileRun (enc : List Nat → List Nat) (data : List Nat) : UploadOut :=
  uploadGo enc data.length data.length 1 0 0 data

/-- What `__upload_file` ends with: the emitted chunks together with the
two arguments of the final `__set_information(crc, addr)` call, where
`crc = (~accumulated) & 0xFFFFFFFF`. -/
structure UploadFileResult where
  chunks : List UploadChunk
  infoCrc : Nat
  infoLength : Nat
deriving DecidableEq, Repr

/-- `__upload_file(data, ...)` with chunk transform `enc` (identity when no
key is given, the DES transform otherwise). -/
def uploadFile (enc : List Nat → List Nat) (data : List Nat) : UploadFileResult :=
  let out := uploadFileRun enc data
  ⟨out.chunks, pyInv32 out.crcOut, out.addrOut⟩

/-- The per-chunk transform `__encrypt` of `__upload_file` when a key is
present: the engine is built as `DES.new(key[::-1], DES.MODE_ECB)` and a
chunk is sent as `des.encrypt(chunk[::-1])[::-1]`.  The DES block cipher
itself is an external library, kept abstract: `desEcb key block` stands
for the ECB encryption of `block` under `key`. -/
def pyEncrypt (desEcb : List Nat → List Nat → List Nat) (key : List Nat)
    (chunk : List Nat) : List Nat :=
  (desEcb key.reverse chunk.reverse).reverse

/-- The wire packet built by `__upload(sequence, addr, data, last_chunk)`:
id 0x04, flags 0x81 for the last chunk and 0x80 otherwise, payload
`struct.pack("<IIH", sequence, addr, 0) + data`. -/
def uploadPacketOf (c : UploadChunk) : NetDimmPacket :=
  ⟨0x04, if c.lastChunk then 0x81 else 0x80,
    le32 c.sequence ++ le32 c.addr ++ le16 0 ++ c.data⟩

/-- The packet of `__set_information(crc, length)`: id 0x19, payload
`struct.pack("<III", crc & 0xFFFFFFFF, length, 0)`. -/
def setInformationPacket (crc length : Nat) : NetDimmPacket :=
  ⟨0x19, 0x00, le32 (crc % 0x100000000) ++ le32 length ++ le32 0⟩

/-- The packet of `__set_key_code(keydata)` (sent only after its length
check passes): id 0x7F, payload the raw key bytes. -/
def setKeyCodePacket (keydata : List Nat) : NetDimmPacket :=
  ⟨0x7F, 0x00, keydata⟩

/-- The request packet of `__exchange_host_mode(mask_bits, set_bits)`:
id 0x07, payload `struct.pack("<I", ((mask & 0xFF) << 8) | (set & 0xFF))`. -/
def hostModePacket (maskBits setBits : Nat) : NetDimmPacket :=
  ⟨0x07, 0x00, le32 ((maskBits &&& 0xFF) <<< 8 ||| setBits &&& 0xFF)⟩

/-- The startup no-op packet of `__startup`. -/
def startupPacket : NetDimmPacket := ⟨0x01, 0x00, []⟩

/-- The packet of `__restart`. -/
def restartPacket : NetDimmPacket := ⟨0x0A, 0x00, []⟩

/-- The packet of `__set_time_limit(minutes)`. -/
def setTimeLimitPacket (minutes : Nat) : NetDimmPacket :=
  ⟨0x17, 0x00, le32 minutes⟩

/-- The packet of `__host_poke4(addr, data)`:
`struct.pack("<III", addr, 0, data)` under id 0x11. -/
def hostPoke4Packet (addr data : Nat) : NetDimmPacket :=
  ⟨0x11, 0x00, le32 addr ++ le32 0 ++ le32 data⟩

/-- The per-firmware patch base address table of `__patch_boot_id_check`. -/
def patchBootIdAddr : TargetVersionEnum → Option Nat
  | .TARGET_VERSION_1_07 => some 0x8000d8a0
  | .TARGET_VERSION_2_03 => some 0x8000CC6C
  | .TARGET_VERSION_2_15 => some 0x8000CC6C
  | .TARGET_VERSION_3_01 => some 0x8000dc5c
  | _ => none

/-- The host-poke packets emitted by `__patch_boot_id_check`: none when the
firmware is not in the table; one word for 3.01; four words in order for
the other listed versions. -/
def patchBootIdPackets (version : TargetVersionEnum) : List NetDimmPacket :=
  match patchBootIdAddr version with
  | none => []
  | some addr =>
    if version = .TARGET_VERSION_3_01 then
      [hostPoke4Packet (addr + 0) 0x4800001C]
    else
      [hostPoke4Packet (addr + 0) 0x4e800020,
       hostPoke4Packet (addr + 4) 0x38600000,
       hostPoke4Packet (addr + 8) 0x4e800020,
       hostPoke4Packet (addr + 12) 0x60000000]

/-- The packets sent by `reboot()` inside its session: the startup no-op of
`__connection`, then `__restart`, then `__set_time_limit(10)`, then the
boot-id patch only when the target is Triforce. -/
def rebootPackets (target : TargetEnum) (version : TargetVersionEnum) :
    List NetDimmPacket :=
  [startupPacket, restartPacket, setTimeLimitPacket 10] ++
    (if target = .TARGET_TRIFORCE then patchBootIdPackets version else [])

/-- Stream-level events of one public operation. -/
inductive NetEvent
  | connect
  | sent (p : NetDimmPacket)
  | received (p : NetDimmPacket)
deriving DecidableEq, Repr

/-- Errors `send` can raise in the modelled fragment, all surfaced as
`NetDimmException` by the source: a read with no reply available, a
mismatched reply to the host-mode exchange, and the key length check of
`__set_key_code` ("Key code must by 8 bytes in length"). -/
inductive PyError
  | readFailed
  | protocolError
  | keyCodeLength
deriving DecidableEq, Repr

/-- Outcome of a `send` call: the ordered stream events up to the point of
return or raise, and the raised error if any. -/
structure SendOut where
  events : List NetEvent
  error : Option PyError
deriving DecidableEq, Repr

/-- A well-formed reply to the `__set_host_mode(1)` exchange: id 0x07 with
a 4-byte payload. -/
def hostModeOkResp : NetDimmPacket := ⟨0x07, 0x00, [0, 0, 0, 0]⟩

/-- Event trace of `send(data, key)` (progress callbacks elided; the
connect phase assumed to succeed — its failure path is modelled by
`connectionEvents`).  Order follows the source: `__connection` connects
and sends the startup no-op; `__set_host_mode(1)` sends the exchange
request and validates the reply; then `__set_key_code` with the key if it
is truthy (non-empty) or the magic zero key otherwise — its length check
runs before anything is sent; then `__upload_file` emits the chunks and
the final set-information packet.  `responses` supplies the reply packets
the device sends, in order. -/
def sendRun (desEcb : List Nat → List Nat → List Nat)
    (responses : List NetDimmPacket) (data : List Nat)
    (key : Option (List Nat)) : SendOut :=
  let ev1 : List NetEvent :=
    [.connect, .sent startupPacket, .sent (hostModePacket 0 1)]
  match responses with
  | [] => ⟨ev1, some .readFailed⟩
  | r :: _ =>
    let ev2 := ev1 ++ [.received r]
    if r.pktid ≠ 0x07 then ⟨ev2, some .protocolError⟩
    else if r.data.length ≠ 4 then ⟨ev2, some .protocolError⟩
    else
      let keyBytes : List Nat :=
        match key with
        | some (k@(_ :: _)) => k
        | _ => List.replicate 8 0
      if keyBytes.length ≠ 8 then ⟨ev2, some .keyCodeLength⟩
      else
        let enc : List Nat → List Nat :=
          match key with
          | some (k@(_ :: _)) => pyEncrypt desEcb k
          | _ => fun c => c
        let out := uploadFileRun enc data
        ⟨ev2 ++ [.sent (setKeyCodePacket keyBytes)] ++
            out.chunks.map (fun c => .sent (uploadPacketOf c)) ++
            [.sent (setInformationPacket (pyInv32 out.crcOut) out.addrOut)],
          none⟩

/-- Where (if anywhere) a run of the `__connection` context manager fails:
nowhere, at socket creation, at `connect`, at the startup no-op, or in the
body it wraps. -/
inductive ConnFail
  | ok
  | atCreate
  | atConnect
  | atStartup
  | atBody
deriving DecidableEq, Repr

/-- Socket lifecycle events of `__connection`. -/
inductive ConnEvent
  | socketCreated
  | connected
  | startupSent
  | bodyRan
  | socketClosed
  | sockCleared
deriving DecidableEq, Repr

/-- Event trace of the `__connection` context manager.  The first
`try/except` covers socket creation and `connect` and re-raises as
`NetDimmException` without any cleanup; only the second `try` has the
`finally` that runs `sock.close()` and clears `self.sock`.  So a failure
at `connect` leaves the created socket neither closed nor cleared, while
failures at or after `__startup` reach the `finally`. -/
def connectionEvents : ConnFail → List ConnEvent
  | .ok => [.socketCreated, .connected, .startupSent, .bodyRan,
            .socketClosed, .sockCleared]
  | .atCreate => []
  | .atConnect => [.socketCreated]
  | .atStartup => [.socketCreated, .connected, .socketClosed, .sockCleared]
  | .atBody => [.socketCreated, .connected, .startupSent,
                .socketClosed, .sockCleared]

/-- State of the `__read(num)` loop: `left` bytes still wanted, the bytes
collected so far (the source keeps a list of fragments and joins them at
the end; the join is tracked directly), and the fragments the peer will
still deliver — an empty `pending` means the peer has closed the stream,
where `recv` returns empty bytes forever. -/
structure ReadState where
  left : Nat
  acc : List Nat
  pending : List (List Nat)
deriving DecidableEq, Repr

/-- One `sock.recv(left)` call: the next pending fragment capped at `left`
bytes (the kernel never returns more than requested), or empty bytes when
the peer has closed the stream. -/
def recvOnce (leftBytes : Nat) (pending : List (List Nat)) :
    List Nat × List (List Nat) :=
  match pending with
  | [] => ([], [])
  | c :: rest => (c.take leftBytes, rest)

/-- One iteration of the `while left > 0` body of `__read`:
`ret = sock.recv(left); left -= len(ret); res.append(ret)`. -/
def readStep (s : ReadState) : ReadState :=
  let r := recvOnce s.left s.pending
  ⟨s.left - r.1.length, s.acc ++ r.1, r.2⟩

/-- The `__read` loop with a step budget: `some bytes` when the loop exits
(`left = 0`) within `fuel` iterations, `none` when the budget is exhausted
with the guard still true (the loop is still running). -/
def readRun : Nat → ReadState → Option (List Nat)
  | 0, s => if s.left = 0 then some s.acc else none
  | fuel + 1, s => if s.left = 0 then some s.acc else readRun fuel (readStep s)

/-- Ceiling chunk count: how many 0x8000-byte chunks the upload loop emits
for a payload of length `L`. -/
def numChunks (L : Nat) : Nat := (L + chunkSize - 1) / chunkSize

/-- The `i`-th 0x8000-byte slice of a payload. -/
def sliceAt (rest : List Nat) (i : Nat) : List Nat :=
  (rest.drop (i * chunkSize)).take chunkSize

/-- Closed form of the chunk list the upload loop produces from suffix
`rest` when the running sequence number is `seq0` and the running address
is `addr0` (proved below to equal the output of `uploadGo`). -/
def chunkSpec (enc : List Nat → List Nat) (seq0 addr0 : Nat)
    (rest : List Nat) : List UploadChunk :=
  (List.range (numChunks rest.length)).map fun i =>
    ⟨seq0 + i, addr0 + i * chunkSize, enc (sliceAt rest i),
      decide (rest.length ≤ (i + 1) * chunkSize)⟩

/-! ### CRC32 lemmas -/

theorem xor_lt_32 {x y : Nat} (hx : x < 2 ^ 32) (hy : y < 2 ^ 32) :
    x ^^^ y < 2 ^ 32 :=
  Nat.bitwise_lt hx hy

theorem crcRound_lt {c : Nat} (h : c < 2 ^ 32) : crcRound c < 2 ^ 32 := by
  unfold crcRound
  split
  · exact xor_lt_32 (by omega) (by norm_num [crcPoly])
  · omega

theorem crcRounds_lt (n : Nat) {c : Nat} (h : c < 2 ^ 32) :
    crcRounds n c < 2 ^ 32 := by
  induction n generalizing c with
  | zero => simpa [crcRounds] using h
  | succ n ih => simpa [crcRounds] using ih (crcRound_lt h)

theorem crcUpdate_lt {c : Nat} (b : Nat) (h : c < 2 ^ 32) :
    crcUpdate c b < 2 ^ 32 :=
  crcRounds_lt 8 (xor_lt_32 h (by have := Nat.mod_lt b (y := 256) (by omega); omega))

theorem foldl_crcUpdate_lt (bs : List Nat) {c : Nat} (h : c < 2 ^ 32) :
    bs.foldl crcUpdate c < 2 ^ 32 := by
  induction bs generalizing c with
  | nil => simpa using h
  | cons b bs ih => simpa using ih (crcUpdate_lt b h)

theorem zlibCrc32_lt (d : List Nat) (s : Nat) : zlibCrc32 d s < 2 ^ 32 := by
  unfold zlibCrc32
  exact xor_lt_32
    (foldl_crcUpdate_lt d (xor_lt_32 (Nat.mod_lt _ (by norm_num)) (by norm_num)))
    (by norm_num)

theorem zlibCrc32_nil {s : Nat} (h : s < 2 ^ 32) : zlibCrc32 [] s = s := by
  have hs : s % 0x100000000 = s := Nat.mod_eq_of_lt (by simpa using h)
  simp [zlibCrc32, hs, Nat.xor_cancel_right]

theorem zlibCrc32_append (a b : List Nat) (s : Nat) :
    zlibCrc32 (a ++ b) s = zlibCrc32 b (zlibCrc32 a s) := by
  have hA : List.foldl crcUpdate (s % 0x100000000 ^^^ 0xFFFFFFFF) a < 2 ^ 32 :=
    foldl_crcUpdate_lt a (xor_lt_32 (Nat.mod_lt _ (by norm_num)) (by norm_num))
  have hmod : (List.foldl crcUpdate (s % 0x100000000 ^^^ 0xFFFFFFFF) a ^^^
      0xFFFFFFFF) % 0x100000000 =
      List.foldl crcUpdate (s % 0x100000000 ^^^ 0xFFFFFFFF) a ^^^ 0xFFFFFFFF :=
    Nat.mod_eq_of_lt (by simpa using xor_lt_32 hA (by norm_num))
  unfold zlibCrc32
  rw [hmod, Nat.xor_cancel_right, List.foldl_append]

/-- Chunk-by-chunk accumulation (a fold of `zlib.crc32` steps) agrees with
the one-shot CRC of the concatenated stream. -/
theorem foldl_crc_eq_concat (ds : List (List Nat)) {s : Nat} (h : s < 2 ^ 32) :
    ds.foldl (fun c d => zlibCrc32 d c) s = zlibCrc32 (concatBytes ds) s := by
  induction ds generalizing s with
  | nil => simp [concatBytes, zlibCrc32_nil h]
  | cons d ds ih =>
    simp only [List.foldl_cons, concatBytes, zlibCrc32_append]
    exact ih (zlibCrc32_lt d s)

/-! ### Upload loop lemmas -/

theorem uploadGo_crcOut (enc : List Nat → List Nat) (total : Nat) :
    ∀ fuel seq addr crc rest,
      (uploadGo enc total fuel seq addr crc rest).crcOut =
        ((uploadGo enc total fuel seq addr crc rest).chunks.map
          (fun c => c.data)).foldl (fun c d => zlibCrc32 d c) crc := by
  intro fuel
  induction fuel with
  | zero =>
    intro seq addr crc rest
    cases rest <;> simp [uploadGo]
  | succ fuel ih =>
    intro seq addr crc rest
    cases rest with
    | nil => simp [uploadGo]
    | cons a t =>
      simp only [uploadGo, List.map_cons, List.foldl_cons]
      exact ih _ _ _ _

theorem uploadGo_addrOut (enc : List Nat → List Nat) (total : Nat) :
    ∀ fuel rest, rest.length ≤ fuel → ∀ seq addr crc,
      (uploadGo enc total fuel seq addr crc rest).addrOut = addr + rest.length := by
  intro fuel
  induction fuel with
  | zero =>
    intro rest hr seq addr crc
    have : rest = [] := List.eq_nil_of_length_eq_zero (by omega)
    subst this
    simp [uploadGo]
  | succ fuel ih =>
    intro rest hr seq addr crc
    cases rest with
    | nil => simp [uploadGo]
    | cons a t =>
      simp only [List.length_cons] at hr
      simp only [uploadGo]
      rw [ih _ (by simp [chunkSize]; omega)]
      simp [chunkSize]
      omega

theorem uploadGo_concat_id (total : Nat) :
    ∀ fuel rest, rest.length ≤ fuel → ∀ seq addr crc,
      concatBytes ((uploadGo id total fuel seq addr crc rest).chunks.map
        (fun c => c.data)) = rest := by
  intro fuel
  induction fuel with
  | zero =>
    intro rest hr seq addr crc
    have : rest = [] := List.eq_nil_of_length_eq_zero (by omega)
    subst this
    simp [uploadGo, concatBytes]
  | succ fuel ih =>
    intro rest hr seq addr crc
    cases rest with
    | nil => simp [uploadGo, concatBytes]
    | cons a t =>
      simp only [List.length_cons] at hr
      simp only [uploadGo, List.map_cons, concatBytes, id]
      rw [ih _ (by simp [chunkSize]; omega)]
      exact List.take_append_drop _ _

/-! ### Chunk layout lemmas -/

theorem numChunks_nil : numChunks 0 = 0 := by
  simp [numChunks, chunkSize]

theorem numChunks_eq_one {L : Nat} (h0 : 0 < L) (hle : L ≤ chunkSize) :
    numChunks L = 1 := by
  unfold numChunks chunkSize at *
  omega

theorem numChunks_succ {L : Nat} (h : chunkSize < L) :
    numChunks L = numChunks (L - chunkSize) + 1 := by
  unfold numChunks chunkSize at *
  omega

theorem numChunks_pos {L : Nat} (h : 0 < L) : 1 ≤ numChunks L := by
  unfold numChunks chunkSize at *
  omega

theorem numChunks_mul_ge {L : Nat} (h : 0 < L) :
    L ≤ numChunks L * chunkSize := by
  unfold numChunks chunkSize at *
  omega

theorem succ_mul_lt_of_lt_numChunks {L i : Nat} (h : i + 1 < numChunks L) :
    (i + 1) * chunkSize < L := by
  unfold numChunks chunkSize at *
  omega

theorem chunkSpec_nil (enc : List Nat → List Nat) (seq addr : Nat) :
    chunkSpec enc seq addr [] = [] := by
  simp [chunkSpec, numChunks_nil]

theorem sliceAt_succ (rest : List Nat) (i : Nat) :
    sliceAt rest (i + 1) = sliceAt (rest.drop chunkSize) i := by
  unfold sliceAt
  rw [List.drop_drop]
  have harith : (i + 1) * chunkSize = chunkSize + i * chunkSize := by ring
  rw [harith]

theorem chunkSpec_short (enc : List Nat → List Nat) (seq addr : Nat)
    (rest : List Nat) (h0 : rest ≠ []) (hle : rest.length ≤ chunkSize) :
    chunkSpec enc seq addr rest =
      [⟨seq, addr, enc (rest.take chunkSize), true⟩] := by
  have h1 : numChunks rest.length = 1 :=
    numChunks_eq_one (by simpa [List.length_pos] using h0) hle
  simp only [chunkSpec, h1, sliceAt]
  rw [show List.range 1 = [0] from rfl]
  simp [hle]

theorem chunkSpec_long (enc : List Nat → List Nat) (seq addr : Nat)
    (rest : List Nat) (h : chunkSize < rest.length) :
    chunkSpec enc seq addr rest =
      ⟨seq, addr, enc (rest.take chunkSize), false⟩ ::
        chunkSpec enc (seq + 1) (addr + chunkSize) (rest.drop chunkSize) := by
  have h1 : numChunks rest.length = numChunks (rest.length - chunkSize) + 1 :=
    numChunks_succ h
  have hlen : (rest.drop chunkSize).length = rest.length - chunkSize := by simp
  unfold chunkSpec
  rw [hlen, h1, List.range_succ_eq_map, List.map_cons, List.map_map]
  congr 1
  · simp [sliceAt]
    omega
  · apply List.map_congr_left
    intro i _
    simp only [Function.comp_apply, Nat.succ_eq_add_one, UploadChunk.mk.injEq]
    refine ⟨by omega, by ring, by rw [sliceAt_succ], ?_⟩
    apply decide_eq_decide.mpr
    simp only [chunkSize] at h ⊢
    omega

/-- The chunk list emitted by the upload loop is exactly the closed-form
slice decomposition. -/
theorem uploadGo_chunks (enc : List Nat → List Nat) (total : Nat) :
    ∀ fuel rest, rest.length ≤ fuel → ∀ seq addr crc,
      addr + rest.length = total →
      (uploadGo enc total fuel seq addr crc rest).chunks =
        chunkSpec enc seq addr rest := by
  intro fuel
  induction fuel with
  | zero =>
    intro rest hr seq addr crc htot
    have h : rest = [] := List.eq_nil_of_length_eq_zero (by omega)
    subst h
    simp [uploadGo, chunkSpec_nil]
  | succ fuel ih =>
    intro rest hr seq addr crc htot
    cases rest with
    | nil => simp [uploadGo, chunkSpec_nil]
    | cons a t =>
      simp only [List.length_cons] at hr htot
      by_cases hle : t.length + 1 ≤ chunkSize
      · have hdrop : List.drop chunkSize (a :: t) = [] :=
          List.drop_eq_nil_of_le (by simp; omega)
        have hlen : (List.take chunkSize (a :: t)).length = t.length + 1 := by
          simp [List.length_take]
          omega
        rw [chunkSpec_short enc seq addr (a :: t) (by simp) (by simp; omega)]
        simp only [uploadGo, hdrop, hlen]
        have hflag : decide (addr + (t.length + 1) = total) = true :=
          decide_eq_true (by omega)
        simp [hflag]
      · push_neg at hle
        have hlen : (List.take chunkSize (a :: t)).length = chunkSize := by
          simp [List.length_take]
          omega
        have hflag : decide (addr + chunkSize = total) = false :=
          decide_eq_false (by omega)
        rw [chunkSpec_long enc seq addr (a :: t) (by simpa using hle)]
        simp only [uploadGo, hlen, hflag]
        rw [ih _ (by simp [chunkSize] at hr ⊢; omega) (seq + 1)
          (addr + chunkSize) _ (by simp; omega)]

theorem uploadFile_chunks (enc : List Nat → List Nat) (data : List Nat) :
    (uploadFile enc data).chunks = chunkSpec enc 1 0 data := by
  show (uploadGo enc data.length data.length 1 0 0 data).chunks = _
  exact uploadGo_chunks enc data.length data.length data le_rfl 1 0 0 (by omega)

/-! ### Claim theorems -/

/-- C1: the final set-info of the upload pipeline carries
`crc = (~c) & 0xFFFFFFFF` with `c` the zlib CRC32 (seed 0, accumulated
chunk by chunk) of the concatenation of the chunk payloads actually sent,
and `length = len(data)`; the chunk-wise accumulation equals the one-shot
CRC32 of the whole transmitted stream, and with no key (identity
transform) the transmitted stream is the plaintext payload itself. -/
theorem upload_crc_report (enc : List Nat → List Nat) (data : List Nat) :
    (uploadFile enc data).infoCrc =
      pyInv32 (zlibCrc32
        (concatBytes ((uploadFile enc data).chunks.map (fun c => c.data))) 0) ∧
    (uploadFile enc data).infoLength = data.length ∧
    ((uploadFile enc data).chunks.map (fun c => c.data)).foldl
        (fun c d => zlibCrc32 d c) 0 =
      zlibCrc32
        (concatBytes ((uploadFile enc data).chunks.map (fun c => c.data))) 0 ∧
    concatBytes ((uploadFile id data).chunks.map (fun c => c.data)) = data := by
  refine ⟨?_, ?_, ?_, ?_⟩
  · show pyInv32 (uploadGo enc data.length data.length 1 0 0 data).crcOut = _
    rw [uploadGo_crcOut enc data.length data.length 1 0 0 data,
      foldl_crc_eq_concat _ (by norm_num)]
    rfl
  · show (uploadGo enc data.length data.length 1 0 0 data).addrOut = data.length
    rw [uploadGo_addrOut enc data.length data.length data le_rfl 1 0 0]
    omega
  · exact foldl_crc_eq_concat _ (by norm_num)
  · exact uploadGo_concat_id data.length data.length data le_rfl 1 0 0

/-- C10: for the empty payload `send` raises nothing: the upload loop
emits no chunks, and set-info is still issued with the inversion of the
untouched accumulator, `crc = 0xFFFFFFFF`, and `length = 0`. -/
theorem empty_payload_send (desEcb : List Nat → List Nat → List Nat)
    (enc : List Nat → List Nat) (rest : List NetDimmPacket) :
    uploadFile enc [] = ⟨[], 0xFFFFFFFF, 0⟩ ∧
    sendRun desEcb (hostModeOkResp :: rest) [] none =
      ⟨[.connect, .sent startupPacket, .sent (hostModePacket 0 1),
        .received hostModeOkResp, .sent (setKeyCodePacket (List.replicate 8 0)),
        .sent (setInformationPacket 0xFFFFFFFF 0)], none⟩ :=
  ⟨rfl, rfl⟩

/-- C2: for every non-empty payload (and any length-preserving chunk
transform, which both the identity and the DES transform are), the upload
pipeline emits `numChunks` chunks whose addresses are
`0, 0x8000, 0x10000, …` in strictly ascending order, whose sequence
numbers are `1, 2, 3, …` contiguous, whose payload sizes are 0x8000 except
for the final remainder chunk, and whose wire flags are 0x80 on every
chunk except the last, which alone carries 0x81. -/
theorem upload_chunk_layout (enc : List Nat → List Nat) (data : List Nat)
    (hEnc : ∀ s, (enc s).length = s.length) (hne : data ≠ []) :
    (uploadFile enc data).chunks.length = numChunks data.length ∧
    (uploadFile enc data).chunks.map (fun c => c.addr) =
      (List.range (numChunks data.length)).map (fun i => i * chunkSize) ∧
    List.Pairwise (· < ·)
      ((uploadFile enc data).chunks.map (fun c => c.addr)) ∧
    (uploadFile enc data).chunks.map (fun c => c.sequence) =
      (List.range (numChunks data.length)).map (fun i => i + 1) ∧
    (uploadFile enc data).chunks.map (fun c => c.data.length) =
      List.replicate (numChunks data.length - 1) chunkSize ++
        [data.length - (numChunks data.length - 1) * chunkSize] ∧
    (uploadFile enc data).chunks.map (fun c => (uploadPacketOf c).flags) =
      List.replicate (numChunks data.length - 1) 0x80 ++ [0x81] := by
  have hL : 0 < data.length := List.length_pos.mpr hne
  have hn : 1 ≤ numChunks data.length := numChunks_pos hL
  have hnsplit : numChunks data.length = (numChunks data.length - 1) + 1 := by
    omega
  have hchunks := uploadFile_chunks enc data
  have haddr : (uploadFile enc data).chunks.map (fun c => c.addr) =
      (List.range (numChunks data.length)).map (fun i => i * chunkSize) := by
    rw [hchunks]
    simp only [chunkSpec, List.map_map]
    apply List.map_congr_left
    intro i _
    simp
  have hmid : ∀ i, i < numChunks data.length - 1 →
      (i + 1) * chunkSize < data.length := by
    intro i hi
    exact succ_mul_lt_of_lt_numChunks (by omega)
  have hlast : data.length ≤ numChunks data.length * chunkSize :=
    numChunks_mul_ge hL
  refine ⟨?_, haddr, ?_, ?_, ?_, ?_⟩
  · rw [hchunks]
    simp [chunkSpec]
  · rw [haddr]
    exact List.Pairwise.map _
      (fun a b hab => by simp only [chunkSize]; omega)
      (List.pairwise_lt_range _)
  · rw [hchunks]
    simp only [chunkSpec, List.map_map]
    apply List.map_congr_left
    intro i _
    simp [Nat.add_comm]
  · rw [hchunks]
    simp only [chunkSpec, List.map_map]
    rw [hnsplit, List.range_succ, List.map_append]
    congr 1
    · apply List.eq_replicate_iff.mpr
      refine ⟨by simp, ?_⟩
      intro b hb
      obtain ⟨i, hi, hib⟩ := List.mem_map.mp hb
      have hi2 : i < numChunks data.length - 1 := List.mem_range.mp hi
      have := hmid i hi2
      simp only [Function.comp_apply, hEnc] at hib
      rw [← hib]
      unfold sliceAt
      simp only [List.length_take, List.length_drop, chunkSize] at *
      omega
    · simp only [List.map_cons, List.map_nil, Function.comp_apply, hEnc]
      unfold sliceAt
      rw [hnsplit] at hlast
      simp only [List.length_take, List.length_drop, chunkSize] at *
      congr 1
      omega
  · rw [hchunks]
    simp only [chunkSpec, List.map_map]
    rw [hnsplit, List.range_succ, List.map_append]
    congr 1
    · apply List.eq_replicate_iff.mpr
      refine ⟨by simp, ?_⟩
      intro b hb
      obtain ⟨i, hi, hib⟩ := List.mem_map.mp hb
      have hi2 : i < numChunks data.length - 1 := List.mem_range.mp hi
      have hflag : decide (data.length ≤ (i + 1) * chunkSize) = false :=
        decide_eq_false (by have := hmid i hi2; omega)
      simp only [Function.comp_apply, uploadPacketOf, hflag] at hib
      simpa using hib.symm
    · have hco : numChunks data.length - 1 + 1 = numChunks data.length := by
        omega
      have hflag : decide
          (data.length ≤ (numChunks data.length - 1 + 1) * chunkSize) = true :=
        decide_eq_true (by rw [hco]; exact hlast)
      simp [uploadPacketOf, hflag]

/-- C2 witness: the layout instantiated at the identity transform and the
one-byte payload `[0]`, all hypotheses discharged. -/
theorem upload_chunk_layout_witness :
    (uploadFile id [0]).chunks.length = numChunks 1 ∧
    (uploadFile id [0]).chunks.map (fun c => c.addr) =
      (List.range (numChunks 1)).map (fun i => i * chunkSize) ∧
    List.Pairwise (· < ·) ((uploadFile id [0]).chunks.map (fun c => c.addr)) ∧
    (uploadFile id [0]).chunks.map (fun c => c.sequence) =
      (List.range (numChunks 1)).map (fun i => i + 1) ∧
    (uploadFile id [0]).chunks.map (fun c => c.data.length) =
      List.replicate (numChunks 1 - 1) chunkSize ++
        [1 - (numChunks 1 - 1) * chunkSize] ∧
    (uploadFile id [0]).chunks.map (fun c => (uploadPacketOf c).flags) =
      List.replicate (numChunks 1 - 1) 0x80 ++ [0x81] :=
  upload_chunk_layout id [0] (fun _ => rfl) (by decide)

/-- C3: with an 8-byte key the pipeline keys the (abstract, ECB-mode) DES
engine with the reversed key and transmits every slice as
`reverse(DES_ECB_encrypt(reverse(slice)))`; in particular for key bytes
01..08 the engine key is 08 07 06 05 04 03 02 01 and the 8-byte payload
00..07 is transmitted as the reversed encryption of its reversal. -/
theorem des_transform_usage (desEcb : List Nat → List Nat → List Nat)
    (key : List Nat) (data : List Nat) :
    (∀ chunk, pyEncrypt desEcb key chunk =
      (desEcb key.reverse chunk.reverse).reverse) ∧
    (uploadFile (pyEncrypt desEcb key) data).chunks.map (fun c => c.data) =
      (List.range (numChunks data.length)).map
        (fun i => (desEcb key.reverse (sliceAt data i).reverse).reverse) ∧
    List.reverse [1, 2, 3, 4, 5, 6, 7, 8] = [8, 7, 6, 5, 4, 3, 2, 1] ∧
    (uploadFile (pyEncrypt desEcb [1, 2, 3, 4, 5, 6, 7, 8])
        [0, 1, 2, 3, 4, 5, 6, 7]).chunks.map (fun c => c.data) =
      [(desEcb [8, 7, 6, 5, 4, 3, 2, 1] [7, 6, 5, 4, 3, 2, 1, 0]).reverse] := by
  refine ⟨fun chunk => rfl, ?_, rfl, rfl⟩
  rw [uploadFile_chunks]
  simp only [chunkSpec, List.map_map]
  apply List.map_congr_left
  intro i _
  simp [pyEncrypt]

/-- C4: on a Triforce target `reboot` patches firmware 3.01 with exactly
one host-poke `(0x8000DC5C, 0x4800001C)`; firmware 1.07, 2.03 and 2.15
with exactly four host-pokes in order at `base+0, base+4, base+8, base+12`
(base `0x8000D8A0` for 1.07, `0x8000CC6C` for 2.03/2.15); any other
firmware gets no pokes; and non-Triforce targets never invoke the patch,
sending only startup, restart and set-time-limit. -/
theorem reboot_patch_pokes :
    patchBootIdPackets .TARGET_VERSION_3_01 =
      [hostPoke4Packet 0x8000DC5C 0x4800001C] ∧
    patchBootIdPackets .TARGET_VERSION_1_07 =
      [hostPoke4Packet 0x8000D8A0 0x4E800020,
       hostPoke4Packet 0x8000D8A4 0x38600000,
       hostPoke4Packet 0x8000D8A8 0x4E800020,
       hostPoke4Packet 0x8000D8AC 0x60000000] ∧
    patchBootIdPackets .TARGET_VERSION_2_03 =
      [hostPoke4Packet 0x8000CC6C 0x4E800020,
       hostPoke4Packet 0x8000CC70 0x38600000,
       hostPoke4Packet 0x8000CC74 0x4E800020,
       hostPoke4Packet 0x8000CC78 0x60000000] ∧
    patchBootIdPackets .TARGET_VERSION_2_15 =
      [hostPoke4Packet 0x8000CC6C 0x4E800020,
       hostPoke4Packet 0x8000CC70 0x38600000,
       hostPoke4Packet 0x8000CC74 0x4E800020,
       hostPoke4Packet 0x8000CC78 0x60000000] ∧
    patchBootIdPackets .TARGET_VERSION_UNKNOWN = [] ∧
    patchBootIdPackets .TARGET_VERSION_4_01 = [] ∧
    patchBootIdPackets .TARGET_VERSION_4_02 = [] ∧
    (∀ v, rebootPackets .TARGET_NAOMI v =
        [startupPacket, restartPacket, setTimeLimitPacket 10] ∧
      rebootPackets .TARGET_CHIHIRO v =
        [startupPacket, restartPacket, setTimeLimitPacket 10]) ∧
    (∀ v, rebootPackets .TARGET_TRIFORCE v =
      [startupPacket, restartPacket, setTimeLimitPacket 10] ++
        patchBootIdPackets v) :=
  ⟨rfl, rfl, rfl, rfl, rfl, rfl, rfl, fun _ => ⟨rfl, rfl⟩, fun _ => rfl⟩

/-- C5 counterexample: decoding the get-info reply with payload
`34 12 0C 03 00 01 00 02 DE AD BE EF` yields
`available_game_memory = 0x0100 << 20 = 0x10000000` bytes, which is
256 MiB — not the 16 MiB the claim states (the rest of the claim holds:
version "3.12" maps to Unknown, `memory_size = 0x0200`,
`crc = 0xEFBEADDE`). -/
theorem get_info_decode_counterexample :
    getInformationParse ⟨0x18, 0x00,
        [0x34, 0x12, 0x0C, 0x03, 0x00, 0x01, 0x00, 0x02,
         0xDE, 0xAD, 0xBE, 0xEF]⟩ =
      .ok ⟨0xEFBEADDE, 0x0200, .TARGET_VERSION_UNKNOWN, 0x10000000⟩ ∧
    (0x10000000 : Nat) ≠ 16 * 1024 * 1024 :=
  ⟨rfl, by decide⟩

/-- C5 (amended): on that reply `info` returns firmware Unknown (version
string "3.12" is not a known tag), `memory_size = 0x0200`,
`available_game_memory = 0x0100 << 20` bytes = 256 MiB, and current game
CRC `0xEFBEADDE`. -/
theorem get_info_decode :
    getInformationParse ⟨0x18, 0x00,
        [0x34, 0x12, 0x0C, 0x03, 0x00, 0x01, 0x00, 0x02,
         0xDE, 0xAD, 0xBE, 0xEF]⟩ =
      .ok ⟨0xEFBEADDE, 0x0200, .TARGET_VERSION_UNKNOWN, 0x10000000⟩ ∧
    (0x10000000 : Nat) = 256 * 1024 * 1024 :=
  ⟨rfl, by decide⟩

/-- C6 counterexample: on the control-flow path where the socket is
created but the TCP connect fails, `__connection` raises without ever
closing the socket or clearing the reference — so it is not the case that
every created socket is closed on every path. -/
theorem connection_leak_counterexample :
    (connectionEvents .atConnect).count .socketCreated = 1 ∧
    (connectionEvents .atConnect).count .socketClosed = 0 ∧
    (connectionEvents .atConnect).count .sockCleared = 0 := by
  decide

/-- C6 (amended): on every path of the public operations where the connect
phase completes — normal return, protocol error in the body, and startup
failure included — the created socket is closed exactly once and the
reference cleared before the outcome surfaces; but when `connect` itself
fails after socket creation, the socket is left unclosed and the
reference uncleared. -/
theorem connection_socket_lifecycle :
    ((connectionEvents .ok).count .socketCreated = 1 ∧
     (connectionEvents .ok).count .socketClosed = 1 ∧
     (connectionEvents .ok).count .sockCleared = 1) ∧
    ((connectionEvents .atStartup).count .socketCreated = 1 ∧
     (connectionEvents .atStartup).count .socketClosed = 1 ∧
     (connectionEvents .atStartup).count .sockCleared = 1) ∧
    ((connectionEvents .atBody).count .socketCreated = 1 ∧
     (connectionEvents .atBody).count .socketClosed = 1 ∧
     (connectionEvents .atBody).count .sockCleared = 1) ∧
    (connectionEvents .atCreate).count .socketCreated = 0 ∧
    ((connectionEvents .atConnect).count .socketClosed = 0 ∧
     (connectionEvents .atConnect).count .sockCleared = 0) := by
  decide

/-- C7 counterexample: calling `send` with the 3-byte key `[1, 2, 3]`
raises the key-length error only after the connection event, two sent
packets and one received packet — not before a connection is opened or
any packet is sent, as the claim requires. -/
theorem send_validation_counterexample :
    (sendRun (fun _ b => b) [hostModeOkResp] [] (some [1, 2, 3])).error =
      some .keyCodeLength ∧
    (sendRun (fun _ b => b) [hostModeOkResp] [] (some [1, 2, 3])).events.count
      .connect = 1 ∧
    (sendRun (fun _ b => b) [hostModeOkResp] []
      (some [1, 2, 3])).events.length = 4 := by
  decide

/-- C7 (amended): `send` performs no argument validation before I/O.  For
a truthy key whose length is not 8 the `NetDimmException` of
`__set_key_code` is raised only after the connection is opened, the
startup no-op is sent and the host-mode exchange completes; and for an
8-byte key no error is ever raised regardless of the payload length, so a
payload that is not a multiple of 8 bytes is never rejected by `send`
itself. -/
theorem send_key_validation (desEcb : List Nat → List Nat → List Nat)
    (key key8 data data2 : List Nat) (rest : List NetDimmPacket)
    (hne : key ≠ []) (hlen : key.length ≠ 8) (h8 : key8.length = 8) :
    sendRun desEcb (hostModeOkResp :: rest) data (some key) =
      ⟨[.connect, .sent startupPacket, .sent (hostModePacket 0 1),
        .received hostModeOkResp], some .keyCodeLength⟩ ∧
    (sendRun desEcb (hostModeOkResp :: rest) data2 (some key8)).error =
      none := by
  constructor
  · cases key with
    | nil => exact absurd rfl hne
    | cons a t =>
      simp only [List.length_cons] at hlen
      simp [sendRun, hostModeOkResp]
      omega
  · cases key8 with
    | nil => simp at h8
    | cons a t => simp [sendRun, hostModeOkResp, h8]

/-- C7 witness: the amended statement instantiated at the short key
`[1, 2, 3]`, the 8-byte key `[1..8]` and a 9-byte payload. -/
theorem send_key_validation_witness :
    sendRun (fun _ b => b) (hostModeOkResp :: []) [7] (some [1, 2, 3]) =
      ⟨[.connect, .sent startupPacket, .sent (hostModePacket 0 1),
        .received hostModeOkResp], some .keyCodeLength⟩ ∧
    (sendRun (fun _ b => b) (hostModeOkResp :: [])
      [0, 0, 0, 0, 0, 0, 0, 0, 0]
      (some [1, 2, 3, 4, 5, 6, 7, 8])).error = none :=
  send_key_validation (fun _ b => b) [1, 2, 3] [1, 2, 3, 4, 5, 6, 7, 8]
    [7] [0, 0, 0, 0, 0, 0, 0, 0, 0] [] (by decide) (by decide) (by decide)

/-- Any successful exit of the `__read` loop returns exactly as many bytes
as were outstanding when it started. -/
theorem readRun_length :
    ∀ fuel s bs, readRun fuel s = some bs →
      bs.length = s.left + s.acc.length := by
  intro fuel
  induction fuel with
  | zero =>
    intro s bs h
    simp only [readRun] at h
    by_cases h0 : s.left = 0
    · rw [if_pos h0] at h
      injection h with h
      rw [← h, h0]
      simp
    · rw [if_neg h0] at h
      exact absurd h (by simp)
  | succ fuel ih =>
    intro s bs h
    simp only [readRun] at h
    by_cases h0 : s.left = 0
    · rw [if_pos h0] at h
      injection h with h
      rw [← h, h0]
      simp
    · rw [if_neg h0] at h
      have hrec := ih _ _ h
      have hle : (recvOnce s.left s.pending).1.length ≤ s.left := by
        unfold recvOnce
        cases s.pending with
        | nil => simp
        | cons c r =>
          simp [List.length_take]
      simp only [readStep, List.length_append] at hrec
      omega

/-- C8 counterexample: with the peer closed (no pending data) and 4 bytes
still wanted, the loop state of `__read` is an exact fixpoint of the loop
body — `recv` returns empty bytes, `left` stays 4 — and after 100
iterations the loop is still running: it neither returns short nor raises
an error, contradicting the claim that it terminates with an error when
the peer closes the stream. -/
theorem read_eof_counterexample :
    readStep ⟨4, [], []⟩ = ⟨4, [], []⟩ ∧
    readRun 100 ⟨4, [], []⟩ = none := by
  exact ⟨rfl, by decide⟩

/-- C8 (amended): `__read` never returns fewer than the requested bytes —
any value it returns has exactly length `n` — but when the peer closes the
stream before `n` bytes arrive it does not terminate with an error: `recv`
returns empty bytes forever and the loop runs forever (no fuel bound makes
it exit). -/
theorem read_exact_or_hang (fuel n : Nat) (acc : List Nat)
    (fuel2 n2 : Nat) (chunks : List (List Nat)) (bs : List Nat)
    (hn : n ≠ 0) (hrun : readRun fuel2 ⟨n2, [], chunks⟩ = some bs) :
    readRun fuel ⟨n, acc, []⟩ = none ∧ bs.length = n2 := by
  constructor
  · induction fuel generalizing acc with
    | zero => simp [readRun, hn]
    | succ fuel ih =>
      have hunfold : readRun (fuel + 1) ⟨n, acc, []⟩ =
          readRun fuel (readStep ⟨n, acc, []⟩) := by
        simp [readRun, hn]
      rw [hunfold]
      exact ih (acc ++ [])
  · have := readRun_length fuel2 ⟨n2, [], chunks⟩ bs hrun
    simpa using this

/-- C8 witness: the amended statement instantiated with an exhausted
stream (4 bytes wanted, peer closed) and a live stream delivering 4 bytes
in two fragments. -/
theorem read_exact_or_hang_witness :
    readRun 5 ⟨4, [], []⟩ = none ∧ ([1, 2, 3, 4] : List Nat).length = 4 :=
  read_exact_or_hang 5 4 [] 3 4 [[1, 2], [3, 4]] [1, 2, 3, 4]
    (by decide) (by decide)

/-- C9 counterexample: under a socket that accepts only 3 bytes of the
6-byte buffer (header plus 2 payload bytes), `__send_packet` delivers just
those 3 bytes — the remainder is not retried, contradicting the claim
that the whole buffer is always delivered. -/
theorem send_packet_counterexample :
    sendPacketDelivered (fun _ => 3) ⟨0x04, 0x81, [0xAA, 0xBB]⟩ ≠
      packetBytes ⟨0x04, 0x81, [0xAA, 0xBB]⟩ ∧
    (sendPacketDelivered (fun _ => 3) ⟨0x04, 0x81, [0xAA, 0xBB]⟩).length = 3 ∧
    (packetBytes ⟨0x04, 0x81, [0xAA, 0xBB]⟩).length = 6 := by
  decide

/-- C9 (amended): `__send_packet` passes the whole buffer — the 4-byte
little-endian header followed by the payload — to a single `send` call and
ignores the count it returns: when the socket accepts fewer bytes than
the buffer holds, exactly that prefix is delivered, the undelivered
remainder being the dropped suffix; nothing is retried. -/
theorem send_packet_no_retry (accept : List Nat → Nat) (p : NetDimmPacket)
    (hacc : accept (packetBytes p) < (packetBytes p).length) :
    (packetBytes p).length = 4 + p.data.length ∧
    sendPacketDelivered accept p ++
        (packetBytes p).drop (accept (packetBytes p)) = packetBytes p ∧
    (sendPacketDelivered accept p).length = accept (packetBytes p) ∧
    (sendPacketDelivered accept p).length < (packetBytes p).length := by
  refine ⟨?_, List.take_append_drop _ _, ?_, ?_⟩
  · simp [packetBytes, le32]
    omega
  · simp only [sendPacketDelivered, List.length_take]
    omega
  · simp only [sendPacketDelivered, List.length_take]
    omega

/-- C9 witness: the amended statement instantiated at a socket accepting
3 bytes and the 2-byte-payload packet. -/
theorem send_packet_no_retry_witness :
    (packetBytes ⟨0x04, 0x81, [0xAA, 0xBB]⟩).length =
        4 + ([0xAA, 0xBB] : List Nat).length ∧
    sendPacketDelivered (fun _ => 3) ⟨0x04, 0x81, [0xAA, 0xBB]⟩ ++
        (packetBytes ⟨0x04, 0x81, [0xAA, 0xBB]⟩).drop 3 =
      packetBytes ⟨0x04, 0x81, [0xAA, 0xBB]⟩ ∧
    (sendPacketDelivered (fun _ => 3) ⟨0x04, 0x81, [0xAA, 0xBB]⟩).length = 3 ∧
    (sendPacketDelivered (fun _ => 3) ⟨0x04, 0x81, [0xAA, 0xBB]⟩).length <
      (packetBytes ⟨0x04, 0x81, [0xAA, 0xBB]⟩).length :=
  send_packet_no_retry (fun _ => 3) ⟨0x04, 0x81, [0xAA, 0xBB]⟩ (by decide)

end Netboot
